import Mathlib

/-! # Shallow embedding of the DICL prediction-and-reconstruction pipeline

This file embeds the orchestration core of `src/dicl/dicl.py` (the `DICL`
class and its `IdentityTransformer`): the fitted disentangler pipeline
(`MinMaxScaler` → `StandardScaler` → reduction stage), the single-step and
multi-step prediction drivers, and `compute_metrics`.

Matrices are row-major lists of rows over `ℚ` (machine floats are embedded
as exact rationals); the only real-valued quantities are the aggregate
squared-error entries, which the source computes with `np.linalg.norm`
(a square root), embedded via `Real.sqrt`.

The external in-context trainer (`dicl.icl.iclearner.MultiVariateICLTrainer`)
and the calibration helper (`dicl.utils.calibration.compute_ks_metric`) are
not part of this repository slice; they are modelled from the spec's
documented contracts, with their opaque inference outputs kept as abstract
function parameters. -/

namespace DiclModel

/-- Row-major matrix of rationals (a numpy 2-D array). -/
abbrev Mat : Type := List (List ℚ)

/-- `X` is rectangular with `f` columns (every row has length `f`). -/
def IsRect (X : Mat) (f : ℕ) : Prop := ∀ r ∈ X, r.length = f

/-- Fitted state of a scikit-learn `MinMaxScaler`: per-feature `scale_` and
`min_`.  `transform` is `X * scale_ + min_`; `inverse_transform` is
`(X - min_) / scale_`. -/
structure MinMaxParams where
  scale : List ℚ
  minAdj : List ℚ
deriving DecidableEq

def MinMaxParams.fwdRow (p : MinMaxParams) (x : List ℚ) : List ℚ :=
  (x.zip (p.scale.zip p.minAdj)).map fun q => q.1 * q.2.1 + q.2.2

def MinMaxParams.invRow (p : MinMaxParams) (x : List ℚ) : List ℚ :=
  (x.zip (p.scale.zip p.minAdj)).map fun q => (q.1 - q.2.2) / q.2.1

/-- Fitted state of a scikit-learn `StandardScaler`: per-feature `mean_` and
`scale_`.  `transform` is `(X - mean_) / scale_`; `inverse_transform` is
`X * scale_ + mean_`. -/
structure StdParams where
  meanPar : List ℚ
  stdPar : List ℚ
deriving DecidableEq

def StdParams.fwdRow (p : StdParams) (x : List ℚ) : List ℚ :=
  (x.zip (p.meanPar.zip p.stdPar)).map fun q => (q.1 - q.2.1) / q.2.2

def StdParams.invRow (p : StdParams) (x : List ℚ) : List ℚ :=
  (x.zip (p.meanPar.zip p.stdPar)).map fun q => q.1 * q.2.2 + q.2.1

def dotQ (a b : List ℚ) : ℚ := ((a.zip b).map fun q => q.1 * q.2).sum

def vecSub (a b : List ℚ) : List ℚ := (a.zip b).map fun q => q.1 - q.2

/-- Final reduction stage of the disentangler pipeline: either the source's
`IdentityTransformer` (which returns `input_array * 1`) or a fitted linear
reduction (`PCA`): `transform` is `(X - mean_) @ components_.T`,
`inverse_transform` is `X @ components_ + mean_`. -/
inductive Reduction where
  | identity : Reduction
  | pca (components : Mat) (meanPar : List ℚ) (nFeat : ℕ) : Reduction
deriving DecidableEq

def Reduction.fwdRow : Reduction → List ℚ → List ℚ
  | .identity, x => x.map (· * 1)
  | .pca W m _, x => W.map fun w => dotQ w (vecSub x m)

def Reduction.invRow : Reduction → List ℚ → List ℚ
  | .identity, x => x.map (· * 1)
  | .pca W m nF, z =>
      (List.range nF).map fun f =>
        ((z.zip W).map fun q => q.1 * q.2.getD f 0).sum + m.getD f 0

/-- The fitted disentangler pipeline
`make_pipeline(MinMaxScaler(), StandardScaler(), disentangler)`:
min-max scale, then standardization, then the reduction stage, applied in
that fixed order; the inverse applies the stage inverses in reverse order. -/
structure Disentangler where
  mm : MinMaxParams
  sc : StdParams
  red : Reduction
deriving DecidableEq

def Disentangler.transformRow (d : Disentangler) (x : List ℚ) : List ℚ :=
  d.red.fwdRow (d.sc.fwdRow (d.mm.fwdRow x))

def Disentangler.transform (d : Disentangler) (X : Mat) : Mat :=
  X.map d.transformRow

def Disentangler.invRow (d : Disentangler) (z : List ℚ) : List ℚ :=
  d.mm.invRow (d.sc.invRow (d.red.invRow z))

def Disentangler.inverse_transform (d : Disentangler) (Z : Mat) : Mat :=
  Z.map d.invRow

/-- Well-formedness of the reduction stage for `f` features and `c`
components. -/
def Reduction.WF : Reduction → ℕ → ℕ → Prop
  | .identity, f, c => c = f
  | .pca W m nF, f, c => W.length = c ∧ (∀ w ∈ W, w.length = f) ∧
      m.length = f ∧ nF = f

/-- Well-formedness of a fitted disentangler: all per-feature parameter
vectors have length `f` and the reduction stage maps `f` features to `c`
components. -/
structure Disentangler.WF (d : Disentangler) (f c : ℕ) : Prop where
  mmScale : d.mm.scale.length = f
  mmMin : d.mm.minAdj.length = f
  scMean : d.sc.meanPar.length = f
  scStd : d.sc.stdPar.length = f
  redWF : d.red.WF f c

/-- Per-component distributional summary returned by the trainer: rescaled
`mean_arr`, `mode_arr`, `sigma_arr`, plus the rescaling min/max recorded for
that component. -/
structure ICLStats where
  mean_arr : List ℚ
  mode_arr : List ℚ
  sigma_arr : List ℚ
  rescaling_min : ℚ
  rescaling_max : ℚ
deriving DecidableEq, Inhabited

def listMinQ : List ℚ → ℚ
  | [] => 0
  | x :: xs => xs.foldl min x

def listMaxQ : List ℚ → ℚ
  | [] => 0
  | x :: xs => xs.foldl max x

/-- Column `c` of a matrix. -/
def colVals (X : Mat) (c : ℕ) : List ℚ := X.map fun r => r.getD c 0

/-- Modelled from the spec: the external `MultiVariateICLTrainer`
(`dicl.icl.iclearner`, outside this repository slice).  Its internal
tokenization/inference mechanics are out of scope, so the rescaled
distributional outputs are opaque functions of the context, the
generation-mode flags, the component index and the position (for the
one-step rolling pass) or of context, horizon, flags, component and step
(for the autoregressive extension). -/
structure TrainerModel where
  rollMean : Mat → Bool → Bool → ℕ → ℕ → ℚ
  rollMode : Mat → Bool → Bool → ℕ → ℕ → ℚ
  rollSigma : Mat → Bool → Bool → ℕ → ℕ → ℚ
  arMean : Mat → ℕ → Bool → Bool → ℕ → ℕ → ℚ
  arMode : Mat → ℕ → Bool → Bool → ℕ → ℕ → ℚ
  arSigma : Mat → ℕ → Bool → Bool → ℕ → ℕ → ℚ

/-- Modelled from the spec: `update_context(..., update_min_max=True)`
followed by `icl(...)` and `compute_statistics()` returns, per component, a
one-step-ahead rolling summary covering the whole context (one entry per
context position) together with the per-component rescaling min/max
observed in that context. -/
def TrainerModel.computeStatistics (tr : TrainerModel) (ctx : Mat)
    (stoch iftm : Bool) (nC : ℕ) : List ICLStats :=
  (List.range nC).map fun c =>
    { mean_arr := (List.range ctx.length).map (tr.rollMean ctx stoch iftm c)
      mode_arr := (List.range ctx.length).map (tr.rollMode ctx stoch iftm c)
      sigma_arr := (List.range ctx.length).map (tr.rollSigma ctx stoch iftm c)
      rescaling_min := listMinQ (colVals ctx c)
      rescaling_max := listMaxQ (colVals ctx c) }

/-- Modelled from the spec: `predict_long_horizon_llm(H, ...)` returns the
one-step-ahead rolling summaries with `H` autoregressive steps concatenated
after them, keeping the same per-component min/max computed from the
initial context. -/
def TrainerModel.predictLongHorizon (tr : TrainerModel) (ctx : Mat)
    (hor : ℕ) (stoch iftm : Bool) (nC : ℕ) : List ICLStats :=
  (List.range nC).map fun c =>
    { mean_arr := (List.range ctx.length).map (tr.rollMean ctx stoch iftm c)
        ++ (List.range hor).map (tr.arMean ctx hor stoch iftm c)
      mode_arr := (List.range ctx.length).map (tr.rollMode ctx stoch iftm c)
        ++ (List.range hor).map (tr.arMode ctx hor stoch iftm c)
      sigma_arr := (List.range ctx.length).map (tr.rollSigma ctx stoch iftm c)
        ++ (List.range hor).map (tr.arSigma ctx hor stoch iftm c)
      rescaling_min := listMinQ (colVals ctx c)
      rescaling_max := listMaxQ (colVals ctx c) }

/-- The prediction state persisted on the pipeline by a `predict_*` call:
`self.X`, `self.context_length`, `self.icl_object` and the four bundles
`self.mean`, `self.mode`, `self.lb`, `self.ub`. -/
structure StoredPred where
  X : Mat
  context_length : ℕ
  icl_object : List ICLStats
  mean : Mat
  mode : Mat
  lb : Mat
  ub : Mat

/-- The `DICL` pipeline object: configuration plus the persisted mutable
prediction state.  In Python the attributes `X`, `context_length`,
`icl_object`, `mean`, `mode`, `lb`, `ub` are absent until the first
`predict_*` call and are always (re)assigned together, which is embedded as
one `Option StoredPred`; `prediction_horizon` is only set by multi-step
calls and is kept separately. -/
structure DICLState where
  n_features : ℕ
  n_components : ℕ
  rescale_factor : ℚ
  up_shift : ℚ
  disentangler : Disentangler
  iclearner : TrainerModel
  stored : Option StoredPred
  prediction_horizon : Option ℕ

/-- Per-component inverse rescaling of the mean:
`((mean_arr - up_shift) / rescale_factor) * (max - min) + min`. -/
def rawMeanArr (s : DICLState) (st : ICLStats) : List ℚ :=
  st.mean_arr.map fun v =>
    (v - s.up_shift) / s.rescale_factor *
      (st.rescaling_max - st.rescaling_min) + st.rescaling_min

/-- Per-component inverse rescaling of the mode (same formula as the mean). -/
def rawModeArr (s : DICLState) (st : ICLStats) : List ℚ :=
  st.mode_arr.map fun v =>
    (v - s.up_shift) / s.rescale_factor *
      (st.rescaling_max - st.rescaling_min) + st.rescaling_min

/-- Per-component inverse rescaling of the dispersion:
`(sigma_arr / rescale_factor) * (max - min)` (scaled, not unshifted). -/
def rawSigmaArr (s : DICLState) (st : ICLStats) : List ℚ :=
  st.sigma_arr.map fun v =>
    v / s.rescale_factor * (st.rescaling_max - st.rescaling_min)

/-- The `for dim in range(self.n_components)` loop's `all_mean` columns. -/
def meanCols (s : DICLState) (icl : List ICLStats) : List (List ℚ) :=
  (List.range s.n_components).map fun dim => rawMeanArr s (icl.getD dim default)

/-- The loop's `all_mode` columns. -/
def modeCols (s : DICLState) (icl : List ICLStats) : List (List ℚ) :=
  (List.range s.n_components).map fun dim => rawModeArr s (icl.getD dim default)

/-- The loop's `all_lb` columns: `mean_arr - sigma_arr` per component. -/
def lbCols (s : DICLState) (icl : List ICLStats) : List (List ℚ) :=
  (List.range s.n_components).map fun dim =>
    (rawMeanArr s (icl.getD dim default)).zipWith (· - ·)
      (rawSigmaArr s (icl.getD dim default))

/-- The loop's `all_ub` columns: `mean_arr + sigma_arr` per component. -/
def ubCols (s : DICLState) (icl : List ICLStats) : List (List ℚ) :=
  (List.range s.n_components).map fun dim =>
    (rawMeanArr s (icl.getD dim default)).zipWith (· + ·)
      (rawSigmaArr s (icl.getD dim default))

/-- `np.concatenate(cols, axis=1)` for a list of equal-length column
vectors: row `t` collects entry `t` of every column.  The row count is the
length of the first column, as in numpy. -/
def stackCols (cols : List (List ℚ)) : Mat :=
  (List.range ((cols.head?.map List.length).getD 0)).map fun t =>
    cols.map fun col => col.getD t 0

/-- Failure of the `assert X.shape[1] == self.n_features` shape check. -/
inductive PredError where
  | shapeMismatch
deriving DecidableEq

/-- The single-step context: `self.transform(X[:-1])`. -/
def singleCtx (s : DICLState) (X : Mat) : Mat :=
  s.disentangler.transform (X.take (X.length - 1))

/-- The multi-step context: `self.transform(X[:-1-prediction_horizon])`. -/
def multiCtx (s : DICLState) (X : Mat) (hor : ℕ) : Mat :=
  s.disentangler.transform (X.take (X.length - (hor + 1)))

/-- `self.icl_object` after the single-step trainer run
(`update_context` on the transformed context, `icl(stochastic=True)`,
`compute_statistics()`). -/
def singleIclObject (s : DICLState) (X : Mat) : List ICLStats :=
  s.iclearner.computeStatistics (singleCtx s X) true false s.n_components

/-- `self.icl_object` after the multi-step trainer run
(`update_context`, `icl(...)`, `predict_long_horizon_llm(...)`). -/
def multiIclObject (s : DICLState) (X : Mat) (hor : ℕ)
    (stoch iftm : Bool) : List ICLStats :=
  s.iclearner.predictLongHorizon (multiCtx s X hor) hor stoch iftm
    s.n_components

/-- Step 3 of both predictors: inverse-rescale per component, stack the
per-component columns, and inverse-transform the four bundles
(mean, mode, lower, upper). -/
def bundlesOf (s : DICLState) (icl : List ICLStats) :
    Mat × Mat × Mat × Mat :=
  (s.disentangler.inverse_transform (stackCols (meanCols s icl)),
   s.disentangler.inverse_transform (stackCols (modeCols s icl)),
   s.disentangler.inverse_transform (stackCols (lbCols s icl)),
   s.disentangler.inverse_transform (stackCols (ubCols s icl)))

/-- `DICL.predict_single_step`: check the feature count, disentangle
`X[:-1]`, run the trainer's one-step rolling pass (`stochastic=True`),
inverse-rescale per component, stack columns, inverse-transform the four
bundles, and persist the prediction state. -/
def predict_single_step (s : DICLState) (X : Mat) :
    Except PredError ((Mat × Mat × Mat × Mat) × DICLState) :=
  if X.all (fun r => r.length == s.n_features) then
    .ok (bundlesOf s (singleIclObject s X),
      { s with stored := some ⟨X, X.length, singleIclObject s X,
          (bundlesOf s (singleIclObject s X)).1,
          (bundlesOf s (singleIclObject s X)).2.1,
          (bundlesOf s (singleIclObject s X)).2.2.1,
          (bundlesOf s (singleIclObject s X)).2.2.2⟩ })
  else .error .shapeMismatch

/-- `DICL.predict_multi_step`: check the feature count, disentangle
`X[:-1-H]`, run the trainer's rolling pass followed by the autoregressive
long-horizon pass, then inverse-rescale, stack, inverse-transform and
persist exactly as in the single-step path (the inversion loop is verbatim
the same code), additionally recording `self.prediction_horizon`. -/
def predict_multi_step (s : DICLState) (X : Mat) (hor : ℕ)
    (stoch iftm : Bool) :
    Except PredError ((Mat × Mat × Mat × Mat) × DICLState) :=
  if X.all (fun r => r.length == s.n_features) then
    .ok (bundlesOf s (multiIclObject s X hor stoch iftm),
      { s with
        stored := some ⟨X, X.length, multiIclObject s X hor stoch iftm,
          (bundlesOf s (multiIclObject s X hor stoch iftm)).1,
          (bundlesOf s (multiIclObject s X hor stoch iftm)).2.1,
          (bundlesOf s (multiIclObject s X hor stoch iftm)).2.2.1,
          (bundlesOf s (multiIclObject s X hor stoch iftm)).2.2.2⟩
        prediction_horizon := some hor })
  else .error .shapeMismatch

/-- Failure mode of `compute_metrics` before any prediction: in Python the
attribute reads `self.X` / `self.mean` / `self.icl_object` raise because the
attributes are unset; the spec names this precondition violation NotReady. -/
inductive MetricsError where
  | notReady
deriving DecidableEq

/-- Elementwise squared error of one row: `(x - m) ** 2`. -/
def sqErrRow (x m : List ℚ) : List ℚ := (x.zip m).map fun q => (q.1 - q.2) ^ 2

/-- `(self.X[1:] - self.mean) ** 2`. -/
def perdimSquaredErrors (X meanB : Mat) : Mat :=
  ((X.drop 1).zip meanB).map fun q => sqErrRow q.1 q.2

/-- `np.linalg.norm(self.X[1:] - self.mean, axis=1)`: per-step Euclidean
norm of the error row. -/
noncomputable def aggSquaredError (X meanB : Mat) : List ℝ :=
  ((X.drop 1).zip meanB).map fun q =>
    Real.sqrt (((sqErrRow q.1 q.2).sum : ℚ) : ℝ)

/-- `np.mean` of a rational vector. -/
def listMeanQ (l : List ℚ) : ℚ := l.sum / (l.length : ℚ)

/-- `np.mean` of a real vector. -/
noncomputable def listMeanR (l : List ℝ) : ℝ := l.sum / (l.length : ℝ)

/-- `M.mean(axis=0)`: per-column mean over the rows. -/
def matColMean (M : Mat) : List ℚ :=
  (List.range ((M.head?.map List.length).getD 0)).map fun f =>
    (M.map fun r => r.getD f 0).sum / (M.length : ℚ)

/-- Modelled from the spec: the external calibration helper
`dicl.utils.calibration.compute_ks_metric` (outside this repository slice),
used only through its documented contract
`compute(groundtruth, icl_object, n_components, n_features,
inverse_transform, burnin) -> per-feature statistic array` (the quantile
data it also returns is unused by `compute_metrics`). -/
abbrev KSHelper : Type :=
  Mat → List ICLStats → ℕ → ℕ → (Mat → Mat) → ℕ → List ℚ

/-- The metrics dictionary built by `compute_metrics`.  Note: the source
line `metrics["perdim_squared_error"] = agg_squared_error` stores the
aggregate per-step norm vector under the per-dimension key, so that field
holds a `List ℝ` of one scalar per step. -/
structure MetricsRecord where
  average_agg_squared_error : ℝ
  agg_squared_error : List ℝ
  average_perdim_squared_error : List ℚ
  perdim_squared_error : List ℝ
  perdim_ks : List ℚ
  agg_ks : ℚ

/-- The metrics dictionary as assembled by the body of `compute_metrics`
from the persisted prediction state `p`. -/
noncomputable def mkMetrics (s : DICLState) (p : StoredPred) (burnin : ℕ)
    (ks : KSHelper) : MetricsRecord :=
  let perdim := perdimSquaredErrors p.X p.mean
  let agg := aggSquaredError p.X p.mean
  let kss := ks (p.X.drop 1) p.icl_object s.n_components s.n_features
    s.disentangler.inverse_transform burnin
  { average_agg_squared_error := listMeanR (agg.drop burnin)
    agg_squared_error := agg
    average_perdim_squared_error := matColMean (perdim.drop burnin)
    perdim_squared_error := agg
    perdim_ks := kss
    agg_ks := listMeanQ kss }

/-- `DICL.compute_metrics`: fails with NotReady when no `predict_*` call has
populated the prediction state, otherwise returns the metrics dictionary;
it assigns nothing to the pipeline object, so the state is returned
unchanged. -/
noncomputable def compute_metrics (s : DICLState) (burnin : ℕ) (ks : KSHelper) :
    Except MetricsError (MetricsRecord × DICLState) :=
  match s.stored with
  | none => .error .notReady
  | some p => .ok (mkMetrics s p burnin ks, s)

/-! ## Shared lemmas -/

lemma getD_range_map {α : Type} (f : ℕ → α) (n c : ℕ) (hc : c < n) (d : α) :
    ((List.range n).map f).getD c d = f c := by
  simp [List.getD_eq_getElem?_getD, List.getElem?_map, List.getElem?_range hc]

lemma head?_range_map {α : Type} (f : ℕ → α) (n : ℕ) (hn : 0 < n) :
    ((List.range n).map f).head? = some (f 0) := by
  obtain ⟨m, rfl⟩ := Nat.exists_eq_add_of_lt hn
  rw [List.range_succ_eq_map]
  simp

lemma length_mmFwd (p : MinMaxParams) (x : List ℚ) :
    (p.fwdRow x).length = min x.length (min p.scale.length p.minAdj.length) := by
  simp [MinMaxParams.fwdRow]

lemma length_mmInv (p : MinMaxParams) (x : List ℚ) :
    (p.invRow x).length = min x.length (min p.scale.length p.minAdj.length) := by
  simp [MinMaxParams.invRow]

lemma length_scFwd (p : StdParams) (x : List ℚ) :
    (p.fwdRow x).length = min x.length (min p.meanPar.length p.stdPar.length) := by
  simp [StdParams.fwdRow]

lemma length_scInv (p : StdParams) (x : List ℚ) :
    (p.invRow x).length = min x.length (min p.meanPar.length p.stdPar.length) := by
  simp [StdParams.invRow]

lemma length_transformRow (d : Disentangler) {f c : ℕ} (hWF : d.WF f c)
    (x : List ℚ) (hx : x.length = f) : (d.transformRow x).length = c := by
  have h1 : (d.mm.fwdRow x).length = f := by
    rw [length_mmFwd, hWF.mmScale, hWF.mmMin, hx]; simp
  have h2 : (d.sc.fwdRow (d.mm.fwdRow x)).length = f := by
    rw [length_scFwd, hWF.scMean, hWF.scStd, h1]; simp
  cases hred : d.red with
  | identity =>
      have hc : c = f := by have := hWF.redWF; rwa [hred] at this
      simp [Disentangler.transformRow, hred, Reduction.fwdRow, h2, hc]
  | pca W m nF =>
      have hw : W.length = c := by
        have := hWF.redWF; rw [hred] at this; exact this.1
      simp [Disentangler.transformRow, hred, Reduction.fwdRow, hw]

lemma length_invRow (d : Disentangler) {f c : ℕ} (hWF : d.WF f c)
    (z : List ℚ) (hz : z.length = c) : (d.invRow z).length = f := by
  have h1 : (d.red.invRow z).length = f := by
    cases hred : d.red with
    | identity =>
        have hc : c = f := by have := hWF.redWF; rwa [hred] at this
        simp [hred, Reduction.invRow, hz, hc]
    | pca W m nF =>
        have hnf : nF = f := by
          have := hWF.redWF; rw [hred] at this; exact this.2.2.2
        simp [hred, Reduction.invRow, hnf]
  have h2 : (d.sc.invRow (d.red.invRow z)).length = f := by
    rw [length_scInv, hWF.scMean, hWF.scStd, h1]; simp
  simp [Disentangler.invRow, length_mmInv, hWF.mmScale, hWF.mmMin, h2]

lemma length_transform (d : Disentangler) (X : Mat) :
    (d.transform X).length = X.length := by
  simp [Disentangler.transform]

lemma rect_transform (d : Disentangler) {f c : ℕ} (hWF : d.WF f c)
    {X : Mat} (hX : IsRect X f) : IsRect (d.transform X) c := by
  intro r hr
  rw [Disentangler.transform, List.mem_map] at hr
  obtain ⟨x, hx, rfl⟩ := hr
  exact length_transformRow d hWF x (hX x hx)

lemma length_inverse_transform (d : Disentangler) (Z : Mat) :
    (d.inverse_transform Z).length = Z.length := by
  simp [Disentangler.inverse_transform]

lemma rect_inverse_transform (d : Disentangler) {f c : ℕ} (hWF : d.WF f c)
    {Z : Mat} (hZ : IsRect Z c) : IsRect (d.inverse_transform Z) f := by
  intro r hr
  rw [Disentangler.inverse_transform, List.mem_map] at hr
  obtain ⟨z, hz, rfl⟩ := hr
  exact length_invRow d hWF z (hZ z hz)

lemma stackCols_length (cols : List (List ℚ)) :
    (stackCols cols).length = (cols.head?.map List.length).getD 0 := by
  simp [stackCols]

lemma rect_stackCols (cols : List (List ℚ)) :
    IsRect (stackCols cols) cols.length := by
  intro r hr
  rw [stackCols, List.mem_map] at hr
  obtain ⟨t, _, rfl⟩ := hr
  simp

lemma length_rawMeanArr (s : DICLState) (st : ICLStats) :
    (rawMeanArr s st).length = st.mean_arr.length := by simp [rawMeanArr]

lemma length_rawModeArr (s : DICLState) (st : ICLStats) :
    (rawModeArr s st).length = st.mode_arr.length := by simp [rawModeArr]

lemma length_rawSigmaArr (s : DICLState) (st : ICLStats) :
    (rawSigmaArr s st).length = st.sigma_arr.length := by simp [rawSigmaArr]

lemma length_meanCols (s : DICLState) (icl : List ICLStats) :
    (meanCols s icl).length = s.n_components := by simp [meanCols]

lemma length_modeCols (s : DICLState) (icl : List ICLStats) :
    (modeCols s icl).length = s.n_components := by simp [modeCols]

lemma length_lbCols (s : DICLState) (icl : List ICLStats) :
    (lbCols s icl).length = s.n_components := by simp [lbCols]

lemma length_ubCols (s : DICLState) (icl : List ICLStats) :
    (ubCols s icl).length = s.n_components := by simp [ubCols]

lemma all_length_eq_of_rect {X : Mat} {f : ℕ} (h : IsRect X f) :
    X.all (fun r => r.length == f) = true := by
  rw [List.all_eq_true]
  intro r hr
  exact beq_iff_eq.mpr (h r hr)

lemma predict_single_step_eq {s : DICLState} {X : Mat}
    (hsh : X.all (fun r => r.length == s.n_features) = true) :
    predict_single_step s X = .ok (bundlesOf s (singleIclObject s X),
      { s with stored := some ⟨X, X.length, singleIclObject s X,
          (bundlesOf s (singleIclObject s X)).1,
          (bundlesOf s (singleIclObject s X)).2.1,
          (bundlesOf s (singleIclObject s X)).2.2.1,
          (bundlesOf s (singleIclObject s X)).2.2.2⟩ }) := by
  rw [predict_single_step, if_pos hsh]

lemma predict_multi_step_eq {s : DICLState} {X : Mat} {hor : ℕ}
    {stoch iftm : Bool}
    (hsh : X.all (fun r => r.length == s.n_features) = true) :
    predict_multi_step s X hor stoch iftm =
      .ok (bundlesOf s (multiIclObject s X hor stoch iftm),
        { s with
          stored := some ⟨X, X.length, multiIclObject s X hor stoch iftm,
            (bundlesOf s (multiIclObject s X hor stoch iftm)).1,
            (bundlesOf s (multiIclObject s X hor stoch iftm)).2.1,
            (bundlesOf s (multiIclObject s X hor stoch iftm)).2.2.1,
            (bundlesOf s (multiIclObject s X hor stoch iftm)).2.2.2⟩
          prediction_horizon := some hor }) := by
  rw [predict_multi_step, if_pos hsh]

lemma predict_single_step_ok {s s2 : DICLState} {X : Mat}
    {b : Mat × Mat × Mat × Mat}
    (h : predict_single_step s X = .ok (b, s2)) :
    b = bundlesOf s (singleIclObject s X) ∧
      s2 = { s with stored := some ⟨X, X.length, singleIclObject s X,
        b.1, b.2.1, b.2.2.1, b.2.2.2⟩ } := by
  unfold predict_single_step at h
  split at h
  · injection h with h2
    rw [Prod.mk.injEq] at h2
    obtain ⟨h3, h4⟩ := h2
    subst b
    exact ⟨rfl, h4.symm⟩
  · exact absurd h (by simp)

lemma predict_multi_step_ok {s s2 : DICLState} {X : Mat} {hor : ℕ}
    {stoch iftm : Bool} {b : Mat × Mat × Mat × Mat}
    (h : predict_multi_step s X hor stoch iftm = .ok (b, s2)) :
    b = bundlesOf s (multiIclObject s X hor stoch iftm) ∧
      s2 = { s with
        stored := some ⟨X, X.length, multiIclObject s X hor stoch iftm,
          b.1, b.2.1, b.2.2.1, b.2.2.2⟩
        prediction_horizon := some hor } := by
  unfold predict_multi_step at h
  split at h
  · injection h with h2
    rw [Prod.mk.injEq] at h2
    obtain ⟨h3, h4⟩ := h2
    subst b
    exact ⟨rfl, h4.symm⟩
  · exact absurd h (by simp)

lemma compute_metrics_none {s : DICLState} (burnin : ℕ) (ks : KSHelper)
    (hs : s.stored = none) :
    compute_metrics s burnin ks = .error .notReady := by
  obtain ⟨nf, nc, rf, us, d, tr, st, ph⟩ := s
  dsimp only at hs
  subst hs
  rfl

lemma compute_metrics_some {s : DICLState} {p : StoredPred} (burnin : ℕ)
    (ks : KSHelper) (hs : s.stored = some p) :
    compute_metrics s burnin ks = .ok (mkMetrics s p burnin ks, s) := by
  obtain ⟨nf, nc, rf, us, d, tr, st, ph⟩ := s
  dsimp only at hs
  subst hs
  rfl

/-! ## Concrete fixtures used by witnesses and counterexample inputs -/

/-- Identity-variant disentangler for one feature with trivial fitted
parameters. -/
def wDisent : Disentangler := ⟨⟨[1], [0]⟩, ⟨[0], [1]⟩, .identity⟩

/-- Identity-variant disentangler for two features with trivial fitted
parameters. -/
def wDisent2 : Disentangler := ⟨⟨[1, 1], [0, 0]⟩, ⟨[0, 0], [1, 1]⟩, .identity⟩

/-- A concrete trainer whose rolling mean/mode are constantly `2`, rolling
dispersion constantly `0`, autoregressive mean/mode constantly `5` and
autoregressive dispersion constantly `0`. -/
def wTrainer : TrainerModel :=
  ⟨fun _ _ _ _ _ => 2, fun _ _ _ _ _ => 2, fun _ _ _ _ _ => 0,
   fun _ _ _ _ _ _ => 5, fun _ _ _ _ _ _ => 5, fun _ _ _ _ _ _ => 0⟩

/-- A freshly constructed pipeline (one feature, one component): no
`predict_*` call has been made yet. -/
def wFresh : DICLState :=
  { n_features := 1, n_components := 1, rescale_factor := 7, up_shift := 3/2,
    disentangler := wDisent, iclearner := wTrainer,
    stored := none, prediction_horizon := none }

/-- A concrete persisted prediction state. -/
def wP : StoredPred :=
  ⟨[[1], [1]], 2, [⟨[2], [2], [0], 1, 1⟩], [[1]], [[1]], [[1]], [[1]]⟩

/-- A pipeline that already holds a persisted prediction. -/
def wStored : DICLState := { wFresh with stored := some wP }

/-- A stub calibration helper returning a fixed per-feature statistic. -/
def ksStub : KSHelper := fun _ _ _ _ _ _ => [0]

/-- Persisted prediction state exhibiting the `compute_metrics` key slip:
ground truth row `[3, 4]` against stored mean `[0, 0]` (two features, one
predicted step). -/
def wC1P : StoredPred :=
  ⟨[[0, 0], [3, 4]], 2, [⟨[2, 2], [2, 2], [0, 0], 1, 1⟩],
   [[0, 0]], [[0, 0]], [[0, 0]], [[0, 0]]⟩

/-- Two-feature pipeline holding `wC1P`. -/
def wC1S : DICLState :=
  { n_features := 2, n_components := 2, rescale_factor := 7, up_shift := 3/2,
    disentangler := wDisent2, iclearner := wTrainer,
    stored := some wC1P, prediction_horizon := none }

/-- Two-feature stub calibration helper. -/
def ksStub2 : KSHelper := fun _ _ _ _ _ _ => [0, 0]

/-! ## Claims -/

/-- C1 (code bug, evaluated at the failing input): the source line
`metrics["perdim_squared_error"] = agg_squared_error` stores the per-step
aggregate Euclidean-norm vector under the per-dimension key instead of the
computed `perdim_squared_errors` matrix.  At ground truth `[3, 4]` and mean
`[0, 0]` the per-step per-feature squared errors are `[[9, 16]]`, but the
returned entry is the aggregate vector `[sqrt 25] = [5]`. -/
theorem C1_perdim_entry_holds_agg_vector :
    compute_metrics wC1S 0 ksStub2 =
        .ok (mkMetrics wC1S wC1P 0 ksStub2, wC1S) ∧
      (mkMetrics wC1S wC1P 0 ksStub2).perdim_squared_error =
        aggSquaredError wC1P.X wC1P.mean ∧
      perdimSquaredErrors wC1P.X wC1P.mean = [[9, 16]] ∧
      aggSquaredError wC1P.X wC1P.mean = [Real.sqrt 25] ∧
      Real.sqrt 25 = 5 := by
  refine ⟨compute_metrics_some 0 ksStub2 rfl, rfl,
    by norm_num [perdimSquaredErrors, sqErrRow, wC1P], ?_, ?_⟩
  · simp only [aggSquaredError, sqErrRow, wC1P]
    norm_num
  · rw [show (25 : ℝ) = 5 ^ 2 by norm_num]
    rw [Real.sqrt_sq]
    norm_num

/-- C5 (code bug, evaluated at the failing input): on a window whose single
component is constant, the recorded rescaling min and max coincide, yet
both `predict_*` calls return bundles normally — no DegenerateRangeError
exists anywhere in the code. -/
theorem C5_degenerate_range_not_rejected :
    (predict_single_step wFresh [[2], [2], [2]]).map Prod.fst =
        .ok ([[2], [2]], [[2], [2]], [[2], [2]], [[2], [2]]) ∧
      (predict_multi_step wFresh [[2], [2], [2]] 1 false false).map
          Prod.fst =
        .ok ([[2], [2]], [[2], [2]], [[2], [2]], [[2], [2]]) ∧
      (∀ st ∈ singleIclObject wFresh [[2], [2], [2]],
        st.rescaling_min = st.rescaling_max) ∧
      (∀ st ∈ multiIclObject wFresh [[2], [2], [2]] 1 false false,
        st.rescaling_min = st.rescaling_max) := by
  refine ⟨?_, ?_, ?_, ?_⟩
  · rw [@predict_single_step_eq wFresh [[2], [2], [2]] rfl]
    simp only [Except.map]
    norm_num [bundlesOf, singleIclObject, singleCtx, Disentangler.transform,
      Disentangler.transformRow, Disentangler.inverse_transform,
      Disentangler.invRow, MinMaxParams.fwdRow, MinMaxParams.invRow,
      StdParams.fwdRow, StdParams.invRow, Reduction.fwdRow, Reduction.invRow,
      TrainerModel.computeStatistics, wFresh, wDisent, wTrainer, meanCols,
      modeCols, lbCols, ubCols, rawMeanArr, rawModeArr, rawSigmaArr,
      stackCols, listMinQ, listMaxQ, colVals, List.range_succ]
  · rw [@predict_multi_step_eq wFresh [[2], [2], [2]] 1 false false rfl]
    simp only [Except.map]
    norm_num [bundlesOf, multiIclObject, multiCtx, Disentangler.transform,
      Disentangler.transformRow, Disentangler.inverse_transform,
      Disentangler.invRow, MinMaxParams.fwdRow, MinMaxParams.invRow,
      StdParams.fwdRow, StdParams.invRow, Reduction.fwdRow, Reduction.invRow,
      TrainerModel.predictLongHorizon, wFresh, wDisent, wTrainer, meanCols,
      modeCols, lbCols, ubCols, rawMeanArr, rawModeArr, rawSigmaArr,
      stackCols, listMinQ, listMaxQ, colVals, List.range_succ]
  · intro st hst
    norm_num [singleIclObject, singleCtx, TrainerModel.computeStatistics,
      wFresh, wDisent, wTrainer, Disentangler.transform,
      Disentangler.transformRow, MinMaxParams.fwdRow, StdParams.fwdRow,
      Reduction.fwdRow, listMinQ, listMaxQ, colVals, List.range_succ] at hst
    subst hst
    norm_num
  · intro st hst
    norm_num [multiIclObject, multiCtx, TrainerModel.predictLongHorizon,
      wFresh, wDisent, wTrainer, Disentangler.transform,
      Disentangler.transformRow, MinMaxParams.fwdRow, StdParams.fwdRow,
      Reduction.fwdRow, listMinQ, listMaxQ, colVals, List.range_succ] at hst
    subst hst
    norm_num

lemma stored_fields_single {s s2 : DICLState} {X : Mat}
    {b : Mat × Mat × Mat × Mat} {p : StoredPred}
    (h : predict_single_step s X = .ok (b, s2)) (hp : s2.stored = some p) :
    p = ⟨X, X.length, singleIclObject s X, b.1, b.2.1, b.2.2.1, b.2.2.2⟩ := by
  obtain ⟨hb, hs2⟩ := predict_single_step_ok h
  subst hs2
  simp only [Option.some.injEq] at hp
  exact hp.symm

lemma stored_fields_multi {s s2 : DICLState} {X : Mat} {hor : ℕ}
    {stoch iftm : Bool} {b : Mat × Mat × Mat × Mat} {p : StoredPred}
    (h : predict_multi_step s X hor stoch iftm = .ok (b, s2))
    (hp : s2.stored = some p) :
    p = ⟨X, X.length, multiIclObject s X hor stoch iftm,
      b.1, b.2.1, b.2.2.1, b.2.2.2⟩ := by
  obtain ⟨hb, hs2⟩ := predict_multi_step_ok h
  subst hs2
  simp only [Option.some.injEq] at hp
  exact hp.symm

/-- C2: In `predict_single_step` and `predict_multi_step`, for every
component `c` with recorded rescaling min/max, the raw mean and mode are
recovered from the trainer's rescaled outputs by
`raw = (rescaled - up_shift) / rescale_factor * (max - min) + min`, and the
raw dispersion by
`raw_dispersion = rescaled_dispersion / rescale_factor * (max - min)` —
the dispersion is scaled but not unshifted — and the returned bundles are
built from exactly these raw columns. -/
theorem C2_rescaling_inversion {s s2 s3 : DICLState} {X Y : Mat}
    {hor : ℕ} {stoch iftm : Bool} {b1 b2 : Mat × Mat × Mat × Mat}
    (h1 : predict_single_step s X = .ok (b1, s2))
    (h2 : predict_multi_step s Y hor stoch iftm = .ok (b2, s3))
    {p q : StoredPred} (hp : s2.stored = some p) (hq : s3.stored = some q)
    (c : ℕ) (hc : c < s.n_components) :
    ((meanCols s p.icl_object).getD c [] =
        (p.icl_object.getD c default).mean_arr.map (fun v =>
          (v - s.up_shift) / s.rescale_factor *
              ((p.icl_object.getD c default).rescaling_max -
                (p.icl_object.getD c default).rescaling_min) +
            (p.icl_object.getD c default).rescaling_min) ∧
      (modeCols s p.icl_object).getD c [] =
        (p.icl_object.getD c default).mode_arr.map (fun v =>
          (v - s.up_shift) / s.rescale_factor *
              ((p.icl_object.getD c default).rescaling_max -
                (p.icl_object.getD c default).rescaling_min) +
            (p.icl_object.getD c default).rescaling_min) ∧
      rawSigmaArr s (p.icl_object.getD c default) =
        (p.icl_object.getD c default).sigma_arr.map (fun v =>
          v / s.rescale_factor *
            ((p.icl_object.getD c default).rescaling_max -
              (p.icl_object.getD c default).rescaling_min)) ∧
      b1 = bundlesOf s p.icl_object) ∧
    ((meanCols s q.icl_object).getD c [] =
        (q.icl_object.getD c default).mean_arr.map (fun v =>
          (v - s.up_shift) / s.rescale_factor *
              ((q.icl_object.getD c default).rescaling_max -
                (q.icl_object.getD c default).rescaling_min) +
            (q.icl_object.getD c default).rescaling_min) ∧
      (modeCols s q.icl_object).getD c [] =
        (q.icl_object.getD c default).mode_arr.map (fun v =>
          (v - s.up_shift) / s.rescale_factor *
              ((q.icl_object.getD c default).rescaling_max -
                (q.icl_object.getD c default).rescaling_min) +
            (q.icl_object.getD c default).rescaling_min) ∧
      rawSigmaArr s (q.icl_object.getD c default) =
        (q.icl_object.getD c default).sigma_arr.map (fun v =>
          v / s.rescale_factor *
            ((q.icl_object.getD c default).rescaling_max -
              (q.icl_object.getD c default).rescaling_min)) ∧
      b2 = bundlesOf s q.icl_object) := by
  obtain ⟨hb1, _⟩ := predict_single_step_ok h1
  obtain ⟨hb2, _⟩ := predict_multi_step_ok h2
  have hpv := stored_fields_single h1 hp
  have hqv := stored_fields_multi h2 hq
  subst hpv
  subst hqv
  refine ⟨⟨?_, ?_, rfl, ?_⟩, ⟨?_, ?_, rfl, ?_⟩⟩
  · rw [meanCols, getD_range_map _ _ _ hc]; rfl
  · rw [modeCols, getD_range_map _ _ _ hc]; rfl
  · exact hb1
  · rw [meanCols, getD_range_map _ _ _ hc]; rfl
  · rw [modeCols, getD_range_map _ _ _ hc]; rfl
  · exact hb2

/-- A small concrete window for witnesses. -/
def wX : Mat := [[1], [2], [3]]

/-- The prediction state persisted by `predict_single_step wFresh wX`. -/
def wSingleP : StoredPred :=
  ⟨wX, wX.length, singleIclObject wFresh wX,
   (bundlesOf wFresh (singleIclObject wFresh wX)).1,
   (bundlesOf wFresh (singleIclObject wFresh wX)).2.1,
   (bundlesOf wFresh (singleIclObject wFresh wX)).2.2.1,
   (bundlesOf wFresh (singleIclObject wFresh wX)).2.2.2⟩

/-- The prediction state persisted by
`predict_multi_step wFresh wX 1 false false`. -/
def wMultiP : StoredPred :=
  ⟨wX, wX.length, multiIclObject wFresh wX 1 false false,
   (bundlesOf wFresh (multiIclObject wFresh wX 1 false false)).1,
   (bundlesOf wFresh (multiIclObject wFresh wX 1 false false)).2.1,
   (bundlesOf wFresh (multiIclObject wFresh wX 1 false false)).2.2.1,
   (bundlesOf wFresh (multiIclObject wFresh wX 1 false false)).2.2.2⟩

/-- Witness for C2 at concrete single- and multi-step calls on `wX`. -/
theorem C2_rescaling_inversion_witness :
    (meanCols wFresh wSingleP.icl_object).getD 0 [] =
      (wSingleP.icl_object.getD 0 default).mean_arr.map (fun v =>
        (v - wFresh.up_shift) / wFresh.rescale_factor *
            ((wSingleP.icl_object.getD 0 default).rescaling_max -
              (wSingleP.icl_object.getD 0 default).rescaling_min) +
          (wSingleP.icl_object.getD 0 default).rescaling_min) :=
  (C2_rescaling_inversion (@predict_single_step_eq wFresh wX rfl)
    (@predict_multi_step_eq wFresh wX 1 false false rfl) rfl rfl 0
    (by decide)).1.1

/-- C3: In every `predict_*` call, the lower and upper bound bundles are
obtained by forming raw-mean − raw-dispersion and raw-mean + raw-dispersion
per component in component space and then applying the disentangler's
inverse transform to those stacked columns, exactly as the mean bundle is
inverted; the bounds are never computed from dispersion after inversion. -/
theorem C3_bounds_inverted_like_mean {s s2 s3 : DICLState} {X Y : Mat}
    {hor : ℕ} {stoch iftm : Bool} {b1 b2 : Mat × Mat × Mat × Mat}
    (h1 : predict_single_step s X = .ok (b1, s2))
    (h2 : predict_multi_step s Y hor stoch iftm = .ok (b2, s3))
    {p q : StoredPred} (hp : s2.stored = some p) (hq : s3.stored = some q)
    (c : ℕ) (hc : c < s.n_components) :
    (b1.2.2.1 =
        s.disentangler.inverse_transform (stackCols (lbCols s p.icl_object)) ∧
      b1.2.2.2 =
        s.disentangler.inverse_transform (stackCols (ubCols s p.icl_object)) ∧
      b1.1 =
        s.disentangler.inverse_transform (stackCols (meanCols s p.icl_object)) ∧
      (lbCols s p.icl_object).getD c [] =
        (rawMeanArr s (p.icl_object.getD c default)).zipWith (· - ·)
          (rawSigmaArr s (p.icl_object.getD c default)) ∧
      (ubCols s p.icl_object).getD c [] =
        (rawMeanArr s (p.icl_object.getD c default)).zipWith (· + ·)
          (rawSigmaArr s (p.icl_object.getD c default))) ∧
    (b2.2.2.1 =
        s.disentangler.inverse_transform (stackCols (lbCols s q.icl_object)) ∧
      b2.2.2.2 =
        s.disentangler.inverse_transform (stackCols (ubCols s q.icl_object)) ∧
      b2.1 =
        s.disentangler.inverse_transform (stackCols (meanCols s q.icl_object)) ∧
      (lbCols s q.icl_object).getD c [] =
        (rawMeanArr s (q.icl_object.getD c default)).zipWith (· - ·)
          (rawSigmaArr s (q.icl_object.getD c default)) ∧
      (ubCols s q.icl_object).getD c [] =
        (rawMeanArr s (q.icl_object.getD c default)).zipWith (· + ·)
          (rawSigmaArr s (q.icl_object.getD c default))) := by
  obtain ⟨hb1, _⟩ := predict_single_step_ok h1
  obtain ⟨hb2, _⟩ := predict_multi_step_ok h2
  have hpv := stored_fields_single h1 hp
  have hqv := stored_fields_multi h2 hq
  subst hpv
  subst hqv
  refine ⟨⟨?_, ?_, ?_, ?_, ?_⟩, ⟨?_, ?_, ?_, ?_, ?_⟩⟩
  · rw [hb1]; rfl
  · rw [hb1]; rfl
  · rw [hb1]; rfl
  · rw [lbCols, getD_range_map _ _ _ hc]
  · rw [ubCols, getD_range_map _ _ _ hc]
  · rw [hb2]; rfl
  · rw [hb2]; rfl
  · rw [hb2]; rfl
  · rw [lbCols, getD_range_map _ _ _ hc]
  · rw [ubCols, getD_range_map _ _ _ hc]

/-- Witness for C3 at concrete single- and multi-step calls on `wX`. -/
theorem C3_bounds_inverted_like_mean_witness :
    (bundlesOf wFresh (singleIclObject wFresh wX)).2.2.1 =
      wFresh.disentangler.inverse_transform
        (stackCols (lbCols wFresh wSingleP.icl_object)) :=
  (C3_bounds_inverted_like_mean (@predict_single_step_eq wFresh wX rfl)
    (@predict_multi_step_eq wFresh wX 1 false false rfl) rfl rfl 0
    (by decide)).1.1

lemma mm_roundtrip_aux (xs : List ℚ) : ∀ ss ms : List ℚ,
    (∀ a ∈ ss, a ≠ 0) → xs.length ≤ ss.length → xs.length ≤ ms.length →
    MinMaxParams.invRow ⟨ss, ms⟩ (MinMaxParams.fwdRow ⟨ss, ms⟩ xs) = xs := by
  induction xs with
  | nil => intro ss ms _ _ _; simp [MinMaxParams.invRow, MinMaxParams.fwdRow]
  | cons x xt ih =>
      intro ss ms h0 h1 h2
      cases ss with
      | nil => simp at h1
      | cons s st =>
          cases ms with
          | nil => simp at h2
          | cons m mt =>
              have hs : s ≠ 0 := h0 s (List.mem_cons_self s st)
              have ht := ih st mt (fun a ha => h0 a (List.mem_cons_of_mem s ha))
                (by simpa using h1) (by simpa using h2)
              simp only [MinMaxParams.fwdRow, MinMaxParams.invRow,
                List.zip_cons_cons, List.map_cons] at ht ⊢
              rw [ht]
              congr 1
              rw [add_sub_cancel_right]
              exact mul_div_cancel_right₀ x hs

lemma sc_roundtrip_aux (xs : List ℚ) : ∀ ss ms : List ℚ,
    (∀ a ∈ ms, a ≠ 0) → xs.length ≤ ss.length → xs.length ≤ ms.length →
    StdParams.invRow ⟨ss, ms⟩ (StdParams.fwdRow ⟨ss, ms⟩ xs) = xs := by
  induction xs with
  | nil => intro ss ms _ _ _; simp [StdParams.invRow, StdParams.fwdRow]
  | cons x xt ih =>
      intro ss ms h0 h1 h2
      cases ss with
      | nil => simp at h1
      | cons s st =>
          cases ms with
          | nil => simp at h2
          | cons m mt =>
              have hm : m ≠ 0 := h0 m (List.mem_cons_self m mt)
              have ht := ih st mt (fun a ha => h0 a (List.mem_cons_of_mem m ha))
                (by simpa using h1) (by simpa using h2)
              simp only [StdParams.fwdRow, StdParams.invRow,
                List.zip_cons_cons, List.map_cons] at ht ⊢
              rw [ht]
              congr 1
              rw [div_mul_cancel₀ _ hm]
              exact sub_add_cancel _ _

lemma mm_roundtrip (p : MinMaxParams) (xs : List ℚ)
    (h0 : ∀ a ∈ p.scale, a ≠ 0) (h1 : xs.length ≤ p.scale.length)
    (h2 : xs.length ≤ p.minAdj.length) : p.invRow (p.fwdRow xs) = xs := by
  obtain ⟨ss, ms⟩ := p
  exact mm_roundtrip_aux xs ss ms h0 h1 h2

lemma sc_roundtrip (p : StdParams) (xs : List ℚ)
    (h0 : ∀ a ∈ p.stdPar, a ≠ 0) (h1 : xs.length ≤ p.meanPar.length)
    (h2 : xs.length ≤ p.stdPar.length) : p.invRow (p.fwdRow xs) = xs := by
  obtain ⟨ss, ms⟩ := p
  exact sc_roundtrip_aux xs ss ms h0 h1 h2

lemma identity_fwdRow (x : List ℚ) : Reduction.identity.fwdRow x = x := by
  simp [Reduction.fwdRow]

lemma identity_invRow (x : List ℚ) : Reduction.identity.invRow x = x := by
  simp [Reduction.invRow]

/-- C8: For the identity variant (identity reduction stage), for every
fitted pipeline and every input matrix with the configured feature count,
`inverse_transform(transform(X)) = X` exactly, where the disentangler is
the fixed-order composition of the min-max scale stage, the
standardization stage and the identity reduction stage.  Fittedness is
captured by the nonzero per-feature scales that scikit-learn's
`_handle_zeros_in_scale` guarantees. -/
theorem C8_identity_roundtrip (d : Disentangler) (f : ℕ)
    (hid : d.red = .identity) (hWF : d.WF f f)
    (hscale : ∀ a ∈ d.mm.scale, a ≠ 0) (hstd : ∀ a ∈ d.sc.stdPar, a ≠ 0)
    (X : Mat) (hX : IsRect X f) :
    d.inverse_transform (d.transform X) = X := by
  rw [Disentangler.inverse_transform, Disentangler.transform, List.map_map]
  have hrow : ∀ x ∈ X, (d.invRow ∘ d.transformRow) x = x := by
    intro x hx
    have hxl : x.length = f := hX x hx
    have hmml : (d.mm.fwdRow x).length = f := by
      rw [length_mmFwd, hWF.mmScale, hWF.mmMin, hxl]; simp
    show d.invRow (d.transformRow x) = x
    rw [Disentangler.transformRow, Disentangler.invRow, hid,
      identity_fwdRow, identity_invRow,
      sc_roundtrip d.sc _ hstd (le_of_eq (hmml.trans hWF.scMean.symm))
        (le_of_eq (hmml.trans hWF.scStd.symm)),
      mm_roundtrip d.mm x hscale (le_of_eq (hxl.trans hWF.mmScale.symm))
        (le_of_eq (hxl.trans hWF.mmMin.symm))]
  calc X.map (d.invRow ∘ d.transformRow) = X.map id := by
        exact List.map_congr_left hrow
    _ = X := List.map_id X

/-- Witness for C8: the concrete identity-variant disentangler on a
concrete window. -/
theorem C8_identity_roundtrip_witness :
    wDisent.inverse_transform (wDisent.transform [[3], [4]]) = [[3], [4]] :=
  C8_identity_roundtrip wDisent 1 rfl ⟨rfl, rfl, rfl, rfl, rfl⟩
    (by norm_num [wDisent]) (by norm_num [wDisent]) [[3], [4]]
    (by intro r hr; simp only [List.mem_cons, List.not_mem_nil, or_false] at hr; rcases hr with rfl | rfl <;> rfl)

lemma computeStatistics_getD (tr : TrainerModel) (ctx : Mat)
    (stoch iftm : Bool) (nC c : ℕ) (hc : c < nC) :
    (tr.computeStatistics ctx stoch iftm nC).getD c default =
      ⟨(List.range ctx.length).map (tr.rollMean ctx stoch iftm c),
       (List.range ctx.length).map (tr.rollMode ctx stoch iftm c),
       (List.range ctx.length).map (tr.rollSigma ctx stoch iftm c),
       listMinQ (colVals ctx c), listMaxQ (colVals ctx c)⟩ := by
  rw [TrainerModel.computeStatistics, getD_range_map _ _ _ hc]

lemma predictLongHorizon_getD (tr : TrainerModel) (ctx : Mat) (hor : ℕ)
    (stoch iftm : Bool) (nC c : ℕ) (hc : c < nC) :
    (tr.predictLongHorizon ctx hor stoch iftm nC).getD c default =
      ⟨(List.range ctx.length).map (tr.rollMean ctx stoch iftm c)
         ++ (List.range hor).map (tr.arMean ctx hor stoch iftm c),
       (List.range ctx.length).map (tr.rollMode ctx stoch iftm c)
         ++ (List.range hor).map (tr.arMode ctx hor stoch iftm c),
       (List.range ctx.length).map (tr.rollSigma ctx stoch iftm c)
         ++ (List.range hor).map (tr.arSigma ctx hor stoch iftm c),
       listMinQ (colVals ctx c), listMaxQ (colVals ctx c)⟩ := by
  rw [TrainerModel.predictLongHorizon, getD_range_map _ _ _ hc]

lemma rect_inv_stack (s : DICLState)
    (hWF : s.disentangler.WF s.n_features s.n_components)
    (cols : List (List ℚ)) (hcl : cols.length = s.n_components) :
    IsRect (s.disentangler.inverse_transform (stackCols cols))
      s.n_features := by
  apply rect_inverse_transform _ hWF
  have h := rect_stackCols cols
  rwa [hcl] at h

lemma bundle_shapes (s : DICLState) (icl : List ICLStats) (n : ℕ)
    (hWF : s.disentangler.WF s.n_features s.n_components)
    (hnc : 0 < s.n_components)
    (hlen : ∀ c, c < s.n_components →
      (icl.getD c default).mean_arr.length = n ∧
      (icl.getD c default).mode_arr.length = n ∧
      (icl.getD c default).sigma_arr.length = n) :
    ((bundlesOf s icl).1.length = n ∧ (bundlesOf s icl).2.1.length = n ∧
      (bundlesOf s icl).2.2.1.length = n ∧
      (bundlesOf s icl).2.2.2.length = n) ∧
    (IsRect (bundlesOf s icl).1 s.n_features ∧
      IsRect (bundlesOf s icl).2.1 s.n_features ∧
      IsRect (bundlesOf s icl).2.2.1 s.n_features ∧
      IsRect (bundlesOf s icl).2.2.2 s.n_features) := by
  obtain ⟨hm, hmo, hsg⟩ := hlen 0 hnc
  refine ⟨⟨?_, ?_, ?_, ?_⟩, ?_, ?_, ?_, ?_⟩
  · show (s.disentangler.inverse_transform
      (stackCols (meanCols s icl))).length = n
    rw [length_inverse_transform, stackCols_length, meanCols,
      head?_range_map _ _ hnc]
    simpa [length_rawMeanArr] using hm
  · show (s.disentangler.inverse_transform
      (stackCols (modeCols s icl))).length = n
    rw [length_inverse_transform, stackCols_length, modeCols,
      head?_range_map _ _ hnc]
    simpa [length_rawModeArr] using hmo
  · show (s.disentangler.inverse_transform
      (stackCols (lbCols s icl))).length = n
    rw [length_inverse_transform, stackCols_length, lbCols,
      head?_range_map _ _ hnc]
    simp only [Option.map_some', Option.getD_some, List.length_zipWith,
      length_rawMeanArr, length_rawSigmaArr]
    rw [hm, hsg, min_self]
  · show (s.disentangler.inverse_transform
      (stackCols (ubCols s icl))).length = n
    rw [length_inverse_transform, stackCols_length, ubCols,
      head?_range_map _ _ hnc]
    simp only [Option.map_some', Option.getD_some, List.length_zipWith,
      length_rawMeanArr, length_rawSigmaArr]
    rw [hm, hsg, min_self]
  · exact rect_inv_stack s hWF _ (length_meanCols s icl)
  · exact rect_inv_stack s hWF _ (length_modeCols s icl)
  · exact rect_inv_stack s hWF _ (length_lbCols s icl)
  · exact rect_inv_stack s hWF _ (length_ubCols s icl)

/-- The pipeline state persisted by a successful `predict_single_step`. -/
def postSingleState (s : DICLState) (X : Mat) : DICLState :=
  { s with stored := some ⟨X, X.length, singleIclObject s X,
      (bundlesOf s (singleIclObject s X)).1,
      (bundlesOf s (singleIclObject s X)).2.1,
      (bundlesOf s (singleIclObject s X)).2.2.1,
      (bundlesOf s (singleIclObject s X)).2.2.2⟩ }

/-- The pipeline state persisted by a successful `predict_multi_step`. -/
def postMultiState (s : DICLState) (X : Mat) (hor : ℕ)
    (stoch iftm : Bool) : DICLState :=
  { s with
    stored := some ⟨X, X.length, multiIclObject s X hor stoch iftm,
      (bundlesOf s (multiIclObject s X hor stoch iftm)).1,
      (bundlesOf s (multiIclObject s X hor stoch iftm)).2.1,
      (bundlesOf s (multiIclObject s X hor stoch iftm)).2.2.1,
      (bundlesOf s (multiIclObject s X hor stoch iftm)).2.2.2⟩
    prediction_horizon := some hor }

lemma length_singleCtx (s : DICLState) (X : Mat) :
    (singleCtx s X).length = X.length - 1 := by
  rw [singleCtx, length_transform, List.length_take]
  exact min_eq_left (Nat.sub_le _ _)

lemma length_multiCtx (s : DICLState) (X : Mat) (hor : ℕ) :
    (multiCtx s X hor).length = X.length - 1 - hor := by
  rw [multiCtx, length_transform, List.length_take]
  rw [min_eq_left (Nat.sub_le _ _), Nat.sub_sub]
  rw [Nat.add_comm]

/-- C4: For every T×F input window with F the configured feature count (and
a well-formed fitted disentangler with at least one component), and for
multi-step every horizon H with 1 ≤ H < T−1: `predict_single_step` succeeds
and returns four arrays each of shape (T−1)×F, and `predict_multi_step`
succeeds and returns four arrays of shape (T−1)×F regardless of H, where
the multi-step context passed to the trainer is the disentangling of all
rows of X except the last H+1, of shape (T−1−H)×C. -/
theorem C4_output_shapes (s : DICLState) (X : Mat) (T hor : ℕ)
    (stoch iftm : Bool)
    (hWF : s.disentangler.WF s.n_features s.n_components)
    (hrect : IsRect X s.n_features) (hT : X.length = T)
    (hnc : 0 < s.n_components) (hh1 : 1 ≤ hor) (hh2 : hor < T - 1) :
    (predict_single_step s X =
        .ok (bundlesOf s (singleIclObject s X), postSingleState s X) ∧
      (bundlesOf s (singleIclObject s X)).1.length = T - 1 ∧
      (bundlesOf s (singleIclObject s X)).2.1.length = T - 1 ∧
      (bundlesOf s (singleIclObject s X)).2.2.1.length = T - 1 ∧
      (bundlesOf s (singleIclObject s X)).2.2.2.length = T - 1 ∧
      IsRect (bundlesOf s (singleIclObject s X)).1 s.n_features ∧
      IsRect (bundlesOf s (singleIclObject s X)).2.1 s.n_features ∧
      IsRect (bundlesOf s (singleIclObject s X)).2.2.1 s.n_features ∧
      IsRect (bundlesOf s (singleIclObject s X)).2.2.2 s.n_features) ∧
    (predict_multi_step s X hor stoch iftm =
        .ok (bundlesOf s (multiIclObject s X hor stoch iftm),
          postMultiState s X hor stoch iftm) ∧
      multiCtx s X hor = s.disentangler.transform (X.take (T - (hor + 1))) ∧
      (multiCtx s X hor).length = T - 1 - hor ∧
      IsRect (multiCtx s X hor) s.n_components ∧
      (bundlesOf s (multiIclObject s X hor stoch iftm)).1.length = T - 1 ∧
      (bundlesOf s (multiIclObject s X hor stoch iftm)).2.1.length = T - 1 ∧
      (bundlesOf s (multiIclObject s X hor stoch iftm)).2.2.1.length =
        T - 1 ∧
      (bundlesOf s (multiIclObject s X hor stoch iftm)).2.2.2.length =
        T - 1 ∧
      IsRect (bundlesOf s (multiIclObject s X hor stoch iftm)).1
        s.n_features ∧
      IsRect (bundlesOf s (multiIclObject s X hor stoch iftm)).2.1
        s.n_features ∧
      IsRect (bundlesOf s (multiIclObject s X hor stoch iftm)).2.2.1
        s.n_features ∧
      IsRect (bundlesOf s (multiIclObject s X hor stoch iftm)).2.2.2
        s.n_features) := by
  have hsh := all_length_eq_of_rect hrect
  have hctxS : (singleCtx s X).length = T - 1 := by
    rw [length_singleCtx, hT]
  have hctxM : (multiCtx s X hor).length = T - 1 - hor := by
    rw [length_multiCtx, hT]
  have hlenS : ∀ c, c < s.n_components →
      ((singleIclObject s X).getD c default).mean_arr.length = T - 1 ∧
      ((singleIclObject s X).getD c default).mode_arr.length = T - 1 ∧
      ((singleIclObject s X).getD c default).sigma_arr.length = T - 1 := by
    intro c hc
    rw [singleIclObject, computeStatistics_getD _ _ _ _ _ _ hc]
    refine ⟨?_, ?_, ?_⟩ <;> simp [hctxS]
  have hsub : T - 1 - hor + hor = T - 1 := Nat.sub_add_cancel (le_of_lt hh2)
  have hlenM : ∀ c, c < s.n_components →
      ((multiIclObject s X hor stoch iftm).getD c default).mean_arr.length =
        T - 1 ∧
      ((multiIclObject s X hor stoch iftm).getD c default).mode_arr.length =
        T - 1 ∧
      ((multiIclObject s X hor stoch
        iftm).getD c default).sigma_arr.length = T - 1 := by
    intro c hc
    rw [multiIclObject, predictLongHorizon_getD _ _ _ _ _ _ _ hc]
    refine ⟨?_, ?_, ?_⟩ <;> simp [hctxM, hsub]
  obtain ⟨⟨l1, l2, l3, l4⟩, r1, r2, r3, r4⟩ :=
    bundle_shapes s (singleIclObject s X) (T - 1) hWF hnc hlenS
  obtain ⟨⟨m1, m2, m3, m4⟩, t1, t2, t3, t4⟩ :=
    bundle_shapes s (multiIclObject s X hor stoch iftm) (T - 1) hWF hnc hlenM
  refine ⟨⟨predict_single_step_eq hsh, l1, l2, l3, l4, r1, r2, r3, r4⟩,
    predict_multi_step_eq hsh, by rw [multiCtx, hT], hctxM, ?_,
    m1, m2, m3, m4, t1, t2, t3, t4⟩
  exact rect_transform _ hWF fun r hr => hrect r (List.mem_of_mem_take hr)

/-- Witness for C4 on a concrete 4×1 window with horizon 1. -/
theorem C4_output_shapes_witness :
    (predict_single_step wFresh [[1], [2], [3], [4]] =
        .ok (bundlesOf wFresh (singleIclObject wFresh [[1], [2], [3], [4]]),
          postSingleState wFresh [[1], [2], [3], [4]]) ∧
      (bundlesOf wFresh
        (singleIclObject wFresh [[1], [2], [3], [4]])).1.length = 4 - 1 ∧
      (bundlesOf wFresh
        (singleIclObject wFresh [[1], [2], [3], [4]])).2.1.length = 4 - 1 ∧
      (bundlesOf wFresh
        (singleIclObject wFresh [[1], [2], [3], [4]])).2.2.1.length =
        4 - 1 ∧
      (bundlesOf wFresh
        (singleIclObject wFresh [[1], [2], [3], [4]])).2.2.2.length =
        4 - 1 ∧
      IsRect (bundlesOf wFresh
        (singleIclObject wFresh [[1], [2], [3], [4]])).1
        wFresh.n_features ∧
      IsRect (bundlesOf wFresh
        (singleIclObject wFresh [[1], [2], [3], [4]])).2.1
        wFresh.n_features ∧
      IsRect (bundlesOf wFresh
        (singleIclObject wFresh [[1], [2], [3], [4]])).2.2.1
        wFresh.n_features ∧
      IsRect (bundlesOf wFresh
        (singleIclObject wFresh [[1], [2], [3], [4]])).2.2.2
        wFresh.n_features) ∧
    (predict_multi_step wFresh [[1], [2], [3], [4]] 1 false false =
        .ok (bundlesOf wFresh
            (multiIclObject wFresh [[1], [2], [3], [4]] 1 false false),
          postMultiState wFresh [[1], [2], [3], [4]] 1 false false) ∧
      multiCtx wFresh [[1], [2], [3], [4]] 1 =
        wFresh.disentangler.transform
          (([[1], [2], [3], [4]] : Mat).take (4 - (1 + 1))) ∧
      (multiCtx wFresh [[1], [2], [3], [4]] 1).length = 4 - 1 - 1 ∧
      IsRect (multiCtx wFresh [[1], [2], [3], [4]] 1)
        wFresh.n_components ∧
      (bundlesOf wFresh
        (multiIclObject wFresh [[1], [2], [3], [4]] 1 false
          false)).1.length = 4 - 1 ∧
      (bundlesOf wFresh
        (multiIclObject wFresh [[1], [2], [3], [4]] 1 false
          false)).2.1.length = 4 - 1 ∧
      (bundlesOf wFresh
        (multiIclObject wFresh [[1], [2], [3], [4]] 1 false
          false)).2.2.1.length = 4 - 1 ∧
      (bundlesOf wFresh
        (multiIclObject wFresh [[1], [2], [3], [4]] 1 false
          false)).2.2.2.length = 4 - 1 ∧
      IsRect (bundlesOf wFresh
        (multiIclObject wFresh [[1], [2], [3], [4]] 1 false false)).1
        wFresh.n_features ∧
      IsRect (bundlesOf wFresh
        (multiIclObject wFresh [[1], [2], [3], [4]] 1 false false)).2.1
        wFresh.n_features ∧
      IsRect (bundlesOf wFresh
        (multiIclObject wFresh [[1], [2], [3], [4]] 1 false false)).2.2.1
        wFresh.n_features ∧
      IsRect (bundlesOf wFresh
        (multiIclObject wFresh [[1], [2], [3], [4]] 1 false false)).2.2.2
        wFresh.n_features) :=
  C4_output_shapes wFresh [[1], [2], [3], [4]] 4 1 false false
    ⟨rfl, rfl, rfl, rfl, rfl⟩
    (by intro r hr
        simp only [List.mem_cons, List.not_mem_nil, or_false] at hr
        rcases hr with rfl | rfl | rfl | rfl <;> rfl)
    rfl (by decide) (by decide) (by decide)

lemma getD_append_lt {α : Type} (l1 l2 : List α) (d : α) (t : ℕ)
    (h : t < l1.length) : (l1 ++ l2).getD t d = l1.getD t d := by
  rw [List.getD_eq_getElem?_getD, List.getD_eq_getElem?_getD,
    List.getElem?_append_left h]

lemma getD_map_lt {α β : Type} (f : α → β) (l : List α) (d : β) (da : α)
    (t : ℕ) (h : t < l.length) : (l.map f).getD t d = f (l.getD t da) := by
  rw [List.getD_eq_getElem?_getD, List.getD_eq_getElem?_getD,
    List.getElem?_map, List.getElem?_eq_getElem h]
  simp

lemma getD_zipWith_lt {α : Type} (f : α → α → α) (a b : List α) (d da : α)
    (t : ℕ) (ha : t < a.length) (hb : t < b.length) :
    (List.zipWith f a b).getD t d = f (a.getD t da) (b.getD t da) := by
  rw [List.getD_eq_getElem?_getD, List.getD_eq_getElem?_getD,
    List.getD_eq_getElem?_getD, List.getElem?_zipWith,
    List.getElem?_eq_getElem ha, List.getElem?_eq_getElem hb]
  simp

lemma head_len_meanCols (s : DICLState) (icl : List ICLStats)
    (hnc : 0 < s.n_components) :
    (((meanCols s icl).head?.map List.length).getD 0) =
      (icl.getD 0 default).mean_arr.length := by
  rw [meanCols, head?_range_map _ _ hnc]
  simp [length_rawMeanArr]

lemma head_len_modeCols (s : DICLState) (icl : List ICLStats)
    (hnc : 0 < s.n_components) :
    (((modeCols s icl).head?.map List.length).getD 0) =
      (icl.getD 0 default).mode_arr.length := by
  rw [modeCols, head?_range_map _ _ hnc]
  simp [length_rawModeArr]

lemma head_len_lbCols (s : DICLState) (icl : List ICLStats)
    (hnc : 0 < s.n_components) :
    (((lbCols s icl).head?.map List.length).getD 0) =
      min (icl.getD 0 default).mean_arr.length
        (icl.getD 0 default).sigma_arr.length := by
  rw [lbCols, head?_range_map _ _ hnc]
  simp [List.length_zipWith, length_rawMeanArr, length_rawSigmaArr]

lemma head_len_ubCols (s : DICLState) (icl : List ICLStats)
    (hnc : 0 < s.n_components) :
    (((ubCols s icl).head?.map List.length).getD 0) =
      min (icl.getD 0 default).mean_arr.length
        (icl.getD 0 default).sigma_arr.length := by
  rw [ubCols, head?_range_map _ _ hnc]
  simp [List.length_zipWith, length_rawMeanArr, length_rawSigmaArr]

/-- C7: For every T×F window with T ≥ 3, the first T−2 rows (rows 0..T−3)
of each bundle returned by `predict_multi_step(X, 1)` — its one-step-ahead
portion — equal the corresponding bundle returned by `predict_single_step`
on the truncated window `X[:T-1]`, assuming the same deterministic trainer
behaviour in both calls (the rolling outputs do not depend on the
generation-mode flags). -/
theorem C7_h1_multi_matches_truncated_single (s : DICLState) (X : Mat)
    (T : ℕ) (stoch iftm : Bool)
    (hrect : IsRect X s.n_features) (hT : X.length = T) (h3 : 3 ≤ T)
    (hnc : 0 < s.n_components)
    (hflM : ∀ ctx a b c t, s.iclearner.rollMean ctx a b c t =
      s.iclearner.rollMean ctx true false c t)
    (hflMo : ∀ ctx a b c t, s.iclearner.rollMode ctx a b c t =
      s.iclearner.rollMode ctx true false c t)
    (hflS : ∀ ctx a b c t, s.iclearner.rollSigma ctx a b c t =
      s.iclearner.rollSigma ctx true false c t) :
    predict_multi_step s X 1 stoch iftm =
      .ok (bundlesOf s (multiIclObject s X 1 stoch iftm),
        postMultiState s X 1 stoch iftm) ∧
    predict_single_step s (X.take (T - 1)) =
      .ok (bundlesOf s (singleIclObject s (X.take (T - 1))),
        postSingleState s (X.take (T - 1))) ∧
    (bundlesOf s (multiIclObject s X 1 stoch iftm)).1.take (T - 2) =
      (bundlesOf s (singleIclObject s (X.take (T - 1)))).1 ∧
    (bundlesOf s (multiIclObject s X 1 stoch iftm)).2.1.take (T - 2) =
      (bundlesOf s (singleIclObject s (X.take (T - 1)))).2.1 ∧
    (bundlesOf s (multiIclObject s X 1 stoch iftm)).2.2.1.take (T - 2) =
      (bundlesOf s (singleIclObject s (X.take (T - 1)))).2.2.1 ∧
    (bundlesOf s (multiIclObject s X 1 stoch iftm)).2.2.2.take (T - 2) =
      (bundlesOf s (singleIclObject s (X.take (T - 1)))).2.2.2 := by
  have hsh := all_length_eq_of_rect hrect
  have hrectT : IsRect (X.take (T - 1)) s.n_features :=
    fun r hr => hrect r (List.mem_of_mem_take hr)
  have hshT := all_length_eq_of_rect hrectT
  have hlen1 : (X.take (T - 1)).length = T - 1 := by
    rw [List.length_take, hT]; exact min_eq_left (by omega)
  have hctxeq : singleCtx s (X.take (T - 1)) = multiCtx s X 1 := by
    rw [singleCtx, multiCtx, hlen1, List.take_take, hT]
    have hmin : min (T - 1 - 1) (T - 1) = T - (1 + 1) := by omega
    rw [hmin]
  have hn : (multiCtx s X 1).length = T - 2 := by
    rw [length_multiCtx, hT]
    omega
  have hSrw : singleIclObject s (X.take (T - 1)) =
      s.iclearner.computeStatistics (multiCtx s X 1) true false
        s.n_components := by
    rw [singleIclObject, hctxeq]
  have hstatM : ∀ c, c < s.n_components →
      ((multiIclObject s X 1 stoch iftm).getD c default).mean_arr.length =
        T - 1 ∧
      ((multiIclObject s X 1 stoch iftm).getD c default).mode_arr.length =
        T - 1 ∧
      ((multiIclObject s X 1 stoch
        iftm).getD c default).sigma_arr.length = T - 1 := by
    intro c hc
    rw [multiIclObject, predictLongHorizon_getD _ _ _ _ _ _ _ hc]
    refine ⟨?_, ?_, ?_⟩ <;> (simp [hn]; omega)
  have hstatS : ∀ c, c < s.n_components →
      ((singleIclObject s
        (X.take (T - 1))).getD c default).mean_arr.length = T - 2 ∧
      ((singleIclObject s
        (X.take (T - 1))).getD c default).mode_arr.length = T - 2 ∧
      ((singleIclObject s
        (X.take (T - 1))).getD c default).sigma_arr.length = T - 2 := by
    intro c hc
    rw [hSrw, computeStatistics_getD _ _ _ _ _ _ hc]
    refine ⟨?_, ?_, ?_⟩ <;> simp [hn]
  have entry_raw : ∀ t, t < T - 2 → ∀ dim, dim < s.n_components →
      ((rawMeanArr s
          ((multiIclObject s X 1 stoch iftm).getD dim default)).getD t 0 =
        (rawMeanArr s
          ((singleIclObject s
            (X.take (T - 1))).getD dim default)).getD t 0) ∧
      ((rawModeArr s
          ((multiIclObject s X 1 stoch iftm).getD dim default)).getD t 0 =
        (rawModeArr s
          ((singleIclObject s
            (X.take (T - 1))).getD dim default)).getD t 0) ∧
      ((rawSigmaArr s
          ((multiIclObject s X 1 stoch iftm).getD dim default)).getD t 0 =
        (rawSigmaArr s
          ((singleIclObject s
            (X.take (T - 1))).getD dim default)).getD t 0) := by
    intro t ht dim hdim
    have htc : t < (multiCtx s X 1).length := by rw [hn]; exact ht
    rw [multiIclObject, predictLongHorizon_getD _ _ _ _ _ _ _ hdim, hSrw,
      computeStatistics_getD _ _ _ _ _ _ hdim]
    refine ⟨?_, ?_, ?_⟩
    · rw [rawMeanArr, rawMeanArr]
      dsimp only
      rw [List.map_append,
        getD_append_lt _ _ _ _ (by simpa using htc),
        List.map_map, List.map_map,
        getD_range_map _ _ _ htc, getD_range_map _ _ _ htc]
      simp only [Function.comp]
      rw [hflM]
    · rw [rawModeArr, rawModeArr]
      dsimp only
      rw [List.map_append,
        getD_append_lt _ _ _ _ (by simpa using htc),
        List.map_map, List.map_map,
        getD_range_map _ _ _ htc, getD_range_map _ _ _ htc]
      simp only [Function.comp]
      rw [hflMo]
    · rw [rawSigmaArr, rawSigmaArr]
      dsimp only
      rw [List.map_append,
        getD_append_lt _ _ _ _ (by simpa using htc),
        List.map_map, List.map_map,
        getD_range_map _ _ _ htc, getD_range_map _ _ _ htc]
      simp only [Function.comp]
      rw [hflS]
  have hminT : min (T - 2) (T - 1) = T - 2 := by omega
  have stack_mean : (stackCols
      (meanCols s (multiIclObject s X 1 stoch iftm))).take (T - 2) =
      stackCols (meanCols s (singleIclObject s (X.take (T - 1)))) := by
    rw [stackCols, stackCols, head_len_meanCols _ _ hnc,
      head_len_meanCols _ _ hnc, (hstatM 0 hnc).1, (hstatS 0 hnc).1,
      ← List.map_take, List.take_range, hminT]
    apply List.map_congr_left
    intro t htm
    have ht : t < T - 2 := List.mem_range.mp htm
    rw [meanCols, meanCols, List.map_map, List.map_map]
    apply List.map_congr_left
    intro dim hdm
    have hdim : dim < s.n_components := List.mem_range.mp hdm
    simp only [Function.comp]
    exact (entry_raw t ht dim hdim).1
  have stack_mode : (stackCols
      (modeCols s (multiIclObject s X 1 stoch iftm))).take (T - 2) =
      stackCols (modeCols s (singleIclObject s (X.take (T - 1)))) := by
    rw [stackCols, stackCols, head_len_modeCols _ _ hnc,
      head_len_modeCols _ _ hnc, (hstatM 0 hnc).2.1, (hstatS 0 hnc).2.1,
      ← List.map_take, List.take_range, hminT]
    apply List.map_congr_left
    intro t htm
    have ht : t < T - 2 := List.mem_range.mp htm
    rw [modeCols, modeCols, List.map_map, List.map_map]
    apply List.map_congr_left
    intro dim hdm
    have hdim : dim < s.n_components := List.mem_range.mp hdm
    simp only [Function.comp]
    exact (entry_raw t ht dim hdim).2.1
  have stack_lb : (stackCols
      (lbCols s (multiIclObject s X 1 stoch iftm))).take (T - 2) =
      stackCols (lbCols s (singleIclObject s (X.take (T - 1)))) := by
    rw [stackCols, stackCols, head_len_lbCols _ _ hnc,
      head_len_lbCols _ _ hnc, (hstatM 0 hnc).1, (hstatM 0 hnc).2.2,
      (hstatS 0 hnc).1, (hstatS 0 hnc).2.2, min_self, min_self,
      ← List.map_take, List.take_range, hminT]
    apply List.map_congr_left
    intro t htm
    have ht : t < T - 2 := List.mem_range.mp htm
    rw [lbCols, lbCols, List.map_map, List.map_map]
    apply List.map_congr_left
    intro dim hdm
    have hdim : dim < s.n_components := List.mem_range.mp hdm
    simp only [Function.comp]
    rw [getD_zipWith_lt _ _ _ _ 0 t
        (by rw [length_rawMeanArr, (hstatM dim hdim).1]; omega)
        (by rw [length_rawSigmaArr, (hstatM dim hdim).2.2]; omega),
      getD_zipWith_lt _ _ _ _ 0 t
        (by rw [length_rawMeanArr, (hstatS dim hdim).1]; omega)
        (by rw [length_rawSigmaArr, (hstatS dim hdim).2.2]; omega),
      (entry_raw t ht dim hdim).1, (entry_raw t ht dim hdim).2.2]
  have stack_ub : (stackCols
      (ubCols s (multiIclObject s X 1 stoch iftm))).take (T - 2) =
      stackCols (ubCols s (singleIclObject s (X.take (T - 1)))) := by
    rw [stackCols, stackCols, head_len_ubCols _ _ hnc,
      head_len_ubCols _ _ hnc, (hstatM 0 hnc).1, (hstatM 0 hnc).2.2,
      (hstatS 0 hnc).1, (hstatS 0 hnc).2.2, min_self, min_self,
      ← List.map_take, List.take_range, hminT]
    apply List.map_congr_left
    intro t htm
    have ht : t < T - 2 := List.mem_range.mp htm
    rw [ubCols, ubCols, List.map_map, List.map_map]
    apply List.map_congr_left
    intro dim hdm
    have hdim : dim < s.n_components := List.mem_range.mp hdm
    simp only [Function.comp]
    rw [getD_zipWith_lt _ _ _ _ 0 t
        (by rw [length_rawMeanArr, (hstatM dim hdim).1]; omega)
        (by rw [length_rawSigmaArr, (hstatM dim hdim).2.2]; omega),
      getD_zipWith_lt _ _ _ _ 0 t
        (by rw [length_rawMeanArr, (hstatS dim hdim).1]; omega)
        (by rw [length_rawSigmaArr, (hstatS dim hdim).2.2]; omega),
      (entry_raw t ht dim hdim).1, (entry_raw t ht dim hdim).2.2]
  refine ⟨predict_multi_step_eq hsh, predict_single_step_eq hshT,
    ?_, ?_, ?_, ?_⟩
  · show (s.disentangler.inverse_transform
        (stackCols (meanCols s
          (multiIclObject s X 1 stoch iftm)))).take (T - 2) =
      s.disentangler.inverse_transform
        (stackCols (meanCols s (singleIclObject s (X.take (T - 1)))))
    rw [Disentangler.inverse_transform, Disentangler.inverse_transform,
      ← List.map_take, stack_mean]
  · show (s.disentangler.inverse_transform
        (stackCols (modeCols s
          (multiIclObject s X 1 stoch iftm)))).take (T - 2) =
      s.disentangler.inverse_transform
        (stackCols (modeCols s (singleIclObject s (X.take (T - 1)))))
    rw [Disentangler.inverse_transform, Disentangler.inverse_transform,
      ← List.map_take, stack_mode]
  · show (s.disentangler.inverse_transform
        (stackCols (lbCols s
          (multiIclObject s X 1 stoch iftm)))).take (T - 2) =
      s.disentangler.inverse_transform
        (stackCols (lbCols s (singleIclObject s (X.take (T - 1)))))
    rw [Disentangler.inverse_transform, Disentangler.inverse_transform,
      ← List.map_take, stack_lb]
  · show (s.disentangler.inverse_transform
        (stackCols (ubCols s
          (multiIclObject s X 1 stoch iftm)))).take (T - 2) =
      s.disentangler.inverse_transform
        (stackCols (ubCols s (singleIclObject s (X.take (T - 1)))))
    rw [Disentangler.inverse_transform, Disentangler.inverse_transform,
      ← List.map_take, stack_ub]

/-- Witness for C7 on a concrete 3×1 window with a flag-insensitive
trainer. -/
theorem C7_h1_multi_matches_truncated_single_witness :
    (bundlesOf wFresh
      (multiIclObject wFresh wX 1 false false)).1.take (3 - 2) =
      (bundlesOf wFresh (singleIclObject wFresh (wX.take (3 - 1)))).1 :=
  (C7_h1_multi_matches_truncated_single wFresh wX 3 false false
    (by intro r hr
        simp only [wX, List.mem_cons, List.not_mem_nil, or_false] at hr
        rcases hr with rfl | rfl | rfl <;> rfl)
    rfl (by decide) (by decide)
    (fun _ _ _ _ _ => rfl) (fun _ _ _ _ _ => rfl)
    (fun _ _ _ _ _ => rfl)).2.2.1

/-- C6: For every freshly constructed pipeline on which no `predict_*` call
has yet been made, calling `compute_metrics` fails with a NotReady error
signaling the violated precondition, and does not return a metrics
record. -/
theorem C6_compute_metrics_not_ready (s : DICLState) (burnin : ℕ)
    (ks : KSHelper) (h : s.stored = none) :
    compute_metrics s burnin ks = .error .notReady :=
  compute_metrics_none burnin ks h

/-- Witness for C6 at a concrete fresh pipeline. -/
theorem C6_compute_metrics_not_ready_witness :
    compute_metrics wFresh 0 ksStub = .error .notReady :=
  C6_compute_metrics_not_ready wFresh 0 ksStub rfl

/-- C9: `compute_metrics` leaves the pipeline's persisted prediction state
unchanged: the state coming out of the call is the state going in (so the
stored window, context length, the four bundles, the stored trainer output
and the recorded horizon are all preserved), and a second consecutive call
with the same burn-in and the same deterministic calibration helper returns
the same metrics record. -/
theorem C9_compute_metrics_frame (s s2 : DICLState) (burnin : ℕ)
    (ks : KSHelper) (r : MetricsRecord)
    (h : compute_metrics s burnin ks = .ok (r, s2)) :
    s2 = s ∧ s2.stored = s.stored ∧
      s2.prediction_horizon = s.prediction_horizon ∧
      compute_metrics s2 burnin ks = .ok (r, s2) := by
  cases hs : s.stored with
  | none => rw [compute_metrics_none burnin ks hs] at h; exact absurd h (by simp)
  | some p =>
      rw [compute_metrics_some burnin ks hs] at h
      simp only [Except.ok.injEq, Prod.mk.injEq] at h
      obtain ⟨hr, hs2⟩ := h
      refine ⟨hs2.symm, hs2 ▸ hs, congrArg DICLState.prediction_horizon hs2.symm,
        ?_⟩
      rw [← hs2, compute_metrics_some burnin ks hs, hr]

/-- Witness for C9 at a concrete pipeline holding a prediction. -/
theorem C9_compute_metrics_frame_witness :
    wStored = wStored ∧ wStored.stored = wStored.stored ∧
      wStored.prediction_horizon = wStored.prediction_horizon ∧
      compute_metrics wStored 0 ksStub =
        .ok (mkMetrics wStored wP 0 ksStub, wStored) :=
  C9_compute_metrics_frame wStored wStored 0 ksStub
    (mkMetrics wStored wP 0 ksStub) rfl

/-- C10: The metrics record returned by `compute_metrics` is internally
consistent: its aggregate calibration entry equals the arithmetic mean of
its per-feature calibration statistics, and its mean aggregate
squared-error entry equals the arithmetic mean over steps `[burnin, end)`
of its per-step aggregate squared-error entries. -/
theorem C10_metrics_internal_consistency (s s2 : DICLState) (burnin : ℕ)
    (ks : KSHelper) (r : MetricsRecord)
    (h : compute_metrics s burnin ks = .ok (r, s2)) :
    r.agg_ks = listMeanQ r.perdim_ks ∧
      r.average_agg_squared_error =
        listMeanR (r.agg_squared_error.drop burnin) := by
  cases hs : s.stored with
  | none => rw [compute_metrics_none burnin ks hs] at h; exact absurd h (by simp)
  | some p =>
      rw [compute_metrics_some burnin ks hs] at h
      simp only [Except.ok.injEq, Prod.mk.injEq] at h
      obtain ⟨hr, _⟩ := h
      subst r
      exact ⟨rfl, rfl⟩

/-- Witness for C10 at a concrete pipeline holding a prediction. -/
theorem C10_metrics_internal_consistency_witness :
    (mkMetrics wStored wP 0 ksStub).agg_ks =
        listMeanQ (mkMetrics wStored wP 0 ksStub).perdim_ks ∧
      (mkMetrics wStored wP 0 ksStub).average_agg_squared_error =
        listMeanR ((mkMetrics wStored wP 0 ksStub).agg_squared_error.drop 0) :=
  C10_metrics_internal_consistency wStored wStored 0 ksStub
    (mkMetrics wStored wP 0 ksStub) rfl

end DiclModel
